import Mathlib

/-!
Shallow embedding of the LCA simulation engine (`simulateLCA` in
`src/LCA4/src/lcaC.c`) and verification of the specified properties.

The C function simulates the Leaky, Competing Accumulator model: an outer
loop over trials, and within each trial a do-while loop that advances the
accumulator vector `x`, detects threshold crossings and records the
response and reaction time.

Doubles are modelled by an arbitrary linear ordered field (instantiated at
`ℚ` for concrete evaluation and at `ℝ` for the `sqrt` noise factor); the
stream of `norm_rand()` draws is modelled by an explicit function
`ω : ℕ → α` together with a running draw counter `cnt` threaded through the
state, exactly mirroring the sequential consumption of the R RNG stream.
A separate embedding over `RVal` (rationals plus a NaN element with
IEEE-style propagating arithmetic and false comparisons) captures the
behaviour of the engine on NaN activations.
-/

/-- Mirror of the parameter block of `simulateLCA` (lcaC.c lines 8-20):
accumulator count, input vector, leak, inhibition, threshold, noise scale,
step size, maximum iterations, non-linearity flag and start points. -/
structure LCAConfig (α : Type) where
  nAcc : ℕ
  I : ℕ → α
  kappa : α
  beta : α
  Z : α
  s : α
  dt : α
  maxiter : ℕ
  nonLinear : Bool
  x0 : ℕ → α

/-- Per-trial mutable state of the C code (lcaC.c lines 39-55): the
accumulator array `x`, the response `resp[i]`, the `winner` flag, the step
counter `iter`, and the number of RNG draws consumed so far (`cnt`, implicit
in C as the position of the shared RNG stream). -/
structure TrialState (α : Type) where
  x : List α
  resp : Int
  winner : Bool
  iter : ℕ
  cnt : ℕ
deriving DecidableEq, Repr

variable {α : Type} [LinearOrderedField α]

/-- The `dummy` array of lcaC.c lines 73-76: `dummy[z] = x[z]*dt*beta`. -/
def contributions (cfg : LCAConfig α) (x : List α) : List α :=
  (List.range cfg.nAcc).map (fun z => x.getD z 0 * cfg.dt * cfg.beta)

/-- The update loop of lcaC.c lines 79-88: `sum` is the summed inhibition
over `dummy`, and each accumulator becomes
`x[z] + dt*I[z] - kappa*x[z]*dt - sum + dummy[z] + rhs*norm_rand()`,
reading only the pre-step snapshot `x`. -/
def lcaUpdate (cfg : LCAConfig α) (rhs : α) (ω : ℕ → α) (cnt : ℕ)
    (x : List α) : List α :=
  let dummy := contributions cfg x
  let sum := dummy.sum
  (List.range cfg.nAcc).map (fun z =>
    x.getD z 0 + cfg.dt * cfg.I z - cfg.kappa * x.getD z 0 * cfg.dt - sum
      + dummy.getD z 0 + rhs * ω (cnt + z))

/-- The threshold-check loop of lcaC.c lines 94-98: walk the updated
values in index order, overwriting `resp` with `z+1` and setting `winner`
on every crossing `x[z] >= Z`. -/
def checkLoop (Z : α) : ℕ → List α → Int → Bool → Int × Bool
  | _, [], resp, winner => (resp, winner)
  | z, v :: rest, resp, winner =>
    if v ≥ Z then checkLoop Z (z + 1) rest ((z : Int) + 1) true
    else checkLoop Z (z + 1) rest resp winner

/-- The non-linearity clamp of lcaC.c lines 101-105: when `nonLinear` is
set, any accumulator with `x[z] < 0` is reset to `0`. -/
def clampNeg (cfg : LCAConfig α) (x : List α) : List α :=
  if cfg.nonLinear then x.map (fun v => if v < 0 then 0 else v) else x

/-- One execution of the do-while body (lcaC.c lines 70-106): update the
accumulators, increment `iter`, run the threshold check on the updated
(pre-clamp) values, apply the clamp, and advance the RNG position by the
`nAcc` draws consumed. -/
def lcaStep (cfg : LCAConfig α) (rhs : α) (ω : ℕ → α)
    (st : TrialState α) : TrialState α :=
  let x1 := lcaUpdate cfg rhs ω st.cnt st.x
  let rw := checkLoop cfg.Z 0 x1 st.resp st.winner
  { x := clampNeg cfg x1, resp := rw.1, winner := rw.2,
    iter := st.iter + 1, cnt := st.cnt + cfg.nAcc }

/-- The do-while loop of lcaC.c lines 70-107: the body always executes at
least once, and repeats while `iter < maxiter && winner == false`.  `fuel`
bounds the number of remaining repetitions; calling with `fuel = maxiter`
reproduces the C loop exactly (the continuation condition fails before the
fuel can run out). -/
def lcaRun (cfg : LCAConfig α) (rhs : α) (ω : ℕ → α) :
    ℕ → TrialState α → TrialState α
  | 0, st => lcaStep cfg rhs ω st
  | fuel + 1, st =>
    let st2 := lcaStep cfg rhs ω st
    if st2.iter < cfg.maxiter ∧ st2.winner = false then
      lcaRun cfg rhs ω fuel st2
    else st2

/-- Trial initialization (lcaC.c lines 51-67): `resp[i] = -1`, no winner,
`iter = 0`, and `x[z] = x0[z]` for each accumulator. -/
def initState (cfg : LCAConfig α) (cnt : ℕ) : TrialState α :=
  { x := (List.range cfg.nAcc).map cfg.x0, resp := -1, winner := false,
    iter := 0, cnt := cnt }

/-- One whole trial (lcaC.c lines 51-110), starting at RNG position `cnt`. -/
def simulateTrial (cfg : LCAConfig α) (rhs : α) (ω : ℕ → α) (cnt : ℕ) :
    TrialState α :=
  lcaRun cfg rhs ω cfg.maxiter (initState cfg cnt)

/-- The outer loop over trials (lcaC.c line 50): each trial starts at the
RNG position where the previous one stopped. -/
def simulateTrials (cfg : LCAConfig α) (rhs : α) (ω : ℕ → α) :
    ℕ → ℕ → List (TrialState α)
  | _, 0 => []
  | cnt, n + 1 =>
    let st := simulateTrial cfg rhs ω cnt
    st :: simulateTrials cfg rhs ω st.cnt n

/-- Reaction time written after the while loop (lcaC.c line 110):
`rt[i] = iter*dt - dt/2`. -/
def rtOf (cfg : LCAConfig α) (st : TrialState α) : α :=
  (st.iter : α) * cfg.dt - cfg.dt / 2

/-- The `resp` output array of the batch. -/
def respOut (cfg : LCAConfig α) (rhs : α) (ω : ℕ → α) (cnt n : ℕ) :
    List Int :=
  (simulateTrials cfg rhs ω cnt n).map (fun st => st.resp)

/-- The `rt` output array of the batch. -/
def rtOut (cfg : LCAConfig α) (rhs : α) (ω : ℕ → α) (cnt n : ℕ) : List α :=
  (simulateTrials cfg rhs ω cnt n).map (rtOf cfg)

/-- The noise factor of lcaC.c line 47: `rhs = sqrt(dt*s*s)`. -/
noncomputable def noiseFactor (cfg : LCAConfig ℝ) : ℝ :=
  Real.sqrt (cfg.dt * cfg.s * cfg.s)

/-- The full engine over the reals: `simulateLCA` of lcaC.c, returning the
`resp` and `rt` output arrays for a batch of `nTrials` trials, with the
RNG stream `ω` consumed from position 0. -/
noncomputable def simulateLCA (cfg : LCAConfig ℝ) (ω : ℕ → ℝ)
    (nTrials : ℕ) : List Int × List ℝ :=
  (respOut cfg (noiseFactor cfg) ω 0 nTrials,
   rtOut cfg (noiseFactor cfg) ω 0 nTrials)

/-!
NaN-aware embedding for the numerical-degeneracy behaviour: `RVal` is a
rational extended with a `nan` element; arithmetic propagates `nan` and
every ordered comparison involving `nan` is false, exactly as for IEEE
doubles in the C code.
-/

/-- Model of a C double that may hold NaN: either NaN or a (rational)
numeric value. -/
inductive RVal where
  | nan : RVal
  | val : ℚ → RVal
deriving DecidableEq, Repr

/-- IEEE-style addition: NaN propagates. -/
def radd : RVal → RVal → RVal
  | RVal.val a, RVal.val b => RVal.val (a + b)
  | _, _ => RVal.nan

/-- IEEE-style subtraction: NaN propagates. -/
def rsub : RVal → RVal → RVal
  | RVal.val a, RVal.val b => RVal.val (a - b)
  | _, _ => RVal.nan

/-- IEEE-style multiplication: NaN propagates. -/
def rmul : RVal → RVal → RVal
  | RVal.val a, RVal.val b => RVal.val (a * b)
  | _, _ => RVal.nan

/-- IEEE-style `>=`: any comparison with NaN is false. -/
def rge : RVal → RVal → Bool
  | RVal.val a, RVal.val b => decide (a ≥ b)
  | _, _ => false

/-- IEEE-style `<`: any comparison with NaN is false. -/
def rlt : RVal → RVal → Bool
  | RVal.val a, RVal.val b => decide (a < b)
  | _, _ => false

/-- Summation loop of lcaC.c lines 79-83 over NaN-aware values. -/
def rsum (l : List RVal) : RVal := l.foldr radd (RVal.val 0)

/-- The `dummy` array (lcaC.c lines 73-76) over NaN-aware values. -/
def contributionsN (cfg : LCAConfig RVal) (x : List RVal) : List RVal :=
  (List.range cfg.nAcc).map (fun z =>
    rmul (rmul (x.getD z (RVal.val 0)) cfg.dt) cfg.beta)

/-- The update loop (lcaC.c lines 86-88) over NaN-aware values. -/
def lcaUpdateN (cfg : LCAConfig RVal) (rhs : RVal) (ω : ℕ → RVal)
    (cnt : ℕ) (x : List RVal) : List RVal :=
  let dummy := contributionsN cfg x
  let sum := rsum dummy
  (List.range cfg.nAcc).map (fun z =>
    radd (radd (rsub (rsub (radd (x.getD z (RVal.val 0))
      (rmul cfg.dt (cfg.I z)))
      (rmul (rmul cfg.kappa (x.getD z (RVal.val 0))) cfg.dt)) sum)
      (dummy.getD z (RVal.val 0)))
      (rmul rhs (ω (cnt + z))))

/-- The threshold-check loop (lcaC.c lines 94-98) over NaN-aware values:
the crossing test `x[z] >= Z` uses the IEEE comparison, which is false
whenever `x[z]` is NaN. -/
def checkLoopN (Z : RVal) : ℕ → List RVal → Int → Bool → Int × Bool
  | _, [], resp, winner => (resp, winner)
  | z, v :: rest, resp, winner =>
    if rge v Z then checkLoopN Z (z + 1) rest ((z : Int) + 1) true
    else checkLoopN Z (z + 1) rest resp winner

/-- The non-linearity clamp (lcaC.c lines 101-105) over NaN-aware values:
`NaN < 0` is false, so NaN entries are left alone. -/
def clampNegN (cfg : LCAConfig RVal) (x : List RVal) : List RVal :=
  if cfg.nonLinear then
    x.map (fun v => if rlt v (RVal.val 0) then RVal.val 0 else v)
  else x

/-- One do-while body (lcaC.c lines 70-106) over NaN-aware values. -/
def lcaStepN (cfg : LCAConfig RVal) (rhs : RVal) (ω : ℕ → RVal)
    (st : TrialState RVal) : TrialState RVal :=
  let x1 := lcaUpdateN cfg rhs ω st.cnt st.x
  let rw := checkLoopN cfg.Z 0 x1 st.resp st.winner
  { x := clampNegN cfg x1, resp := rw.1, winner := rw.2,
    iter := st.iter + 1, cnt := st.cnt + cfg.nAcc }

/-- The do-while loop (lcaC.c lines 70-107) over NaN-aware values. -/
def lcaRunN (cfg : LCAConfig RVal) (rhs : RVal) (ω : ℕ → RVal) :
    ℕ → TrialState RVal → TrialState RVal
  | 0, st => lcaStepN cfg rhs ω st
  | fuel + 1, st =>
    let st2 := lcaStepN cfg rhs ω st
    if st2.iter < cfg.maxiter ∧ st2.winner = false then
      lcaRunN cfg rhs ω fuel st2
    else st2

/-- Trial initialization (lcaC.c lines 51-67) over NaN-aware values. -/
def initStateN (cfg : LCAConfig RVal) (cnt : ℕ) : TrialState RVal :=
  { x := (List.range cfg.nAcc).map cfg.x0, resp := -1, winner := false,
    iter := 0, cnt := cnt }

/-- One whole trial (lcaC.c lines 51-110) over NaN-aware values. -/
def simulateTrialN (cfg : LCAConfig RVal) (rhs : RVal) (ω : ℕ → RVal)
    (cnt : ℕ) : TrialState RVal :=
  lcaRunN cfg rhs ω cfg.maxiter (initStateN cfg cnt)

/-! ### Structural lemmas about the threshold-check loop -/

theorem checkLoop_winner_stays (Z : α) (l : List α) :
    ∀ z r, (checkLoop Z z l r true).2 = true := by
  induction l with
  | nil => intro z r; rfl
  | cons v rest ih =>
    intro z r
    by_cases h : v ≥ Z
    · rw [checkLoop, if_pos h]; exact ih _ _
    · rw [checkLoop, if_neg h]; exact ih _ _

theorem checkLoop_false (Z : α) (l : List α) :
    ∀ z r w, (checkLoop Z z l r w).2 = false →
      (checkLoop Z z l r w).1 = r ∧ w = false := by
  induction l with
  | nil => intro z r w h; exact ⟨rfl, h⟩
  | cons v rest ih =>
    intro z r w h
    by_cases hv : v ≥ Z
    · rw [checkLoop, if_pos hv] at h
      exact absurd h (by rw [checkLoop_winner_stays]; simp)
    · rw [checkLoop, if_neg hv] at h ⊢
      exact ih _ _ _ h

theorem checkLoop_resp_pos (Z : α) (l : List α) :
    ∀ z r w, (w = true → 1 ≤ r) →
      (checkLoop Z z l r w).2 = true → 1 ≤ (checkLoop Z z l r w).1 := by
  induction l with
  | nil => intro z r w hw h; exact hw h
  | cons v rest ih =>
    intro z r w hw
    by_cases hv : v ≥ Z
    · rw [checkLoop, if_pos hv]
      exact ih _ _ _ (fun _ => by omega)
    · rw [checkLoop, if_neg hv]
      exact ih _ _ _ hw

theorem checkLoop_no_match (Z : α) (l : List α) :
    ∀ z r w, (∀ i, i < l.length → ¬ Z ≤ l.getD i 0) →
      checkLoop Z z l r w = (r, w) := by
  induction l with
  | nil => intro z r w _; rfl
  | cons v rest ih =>
    intro z r w hno
    have hv : ¬ v ≥ Z := by
      have := hno 0 (by simp)
      simpa using this
    rw [checkLoop, if_neg hv]
    exact ih _ _ _ (fun i hi => by
      have := hno (i + 1) (by simpa using hi)
      simpa using this)

theorem checkLoop_last (Z : α) (l : List α) :
    ∀ z r w j, j < l.length → Z ≤ l.getD j 0 →
      (∀ i, j < i → i < l.length → ¬ Z ≤ l.getD i 0) →
      checkLoop Z z l r w = (((z + j : ℕ) : Int) + 1, true) := by
  induction l with
  | nil => intro z r w j hj _ _; exact absurd hj (by simp)
  | cons v rest ih =>
    intro z r w j hj hcross hafter
    cases j with
    | zero =>
      have hv : v ≥ Z := by simpa using hcross
      rw [checkLoop, if_pos hv]
      rw [checkLoop_no_match Z rest _ _ _ (fun i hi => by
        have := hafter (i + 1) (by omega) (by simpa using hi)
        simpa using this)]
      simp
    | succ j1 =>
      have h1 : Z ≤ rest.getD j1 0 := by simpa using hcross
      have h2 : ∀ i, j1 < i → i < rest.length → ¬ Z ≤ rest.getD i 0 :=
        fun i hi hilen => by
          have := hafter (i + 1) (by omega) (by simpa using hilen)
          simpa using this
      have h3 : j1 < rest.length := by simpa using hj
      by_cases hv : v ≥ Z
      · rw [checkLoop, if_pos hv, ih (z + 1) _ _ j1 h3 h1 h2]
        congr 1
        push_cast
        ring
      · rw [checkLoop, if_neg hv, ih (z + 1) _ _ j1 h3 h1 h2]
        congr 1
        push_cast
        ring

/-! ### Per-step lemmas -/

theorem lcaUpdate_length (cfg : LCAConfig α) (rhs : α) (ω : ℕ → α)
    (cnt : ℕ) (x : List α) :
    (lcaUpdate cfg rhs ω cnt x).length = cfg.nAcc := by
  simp [lcaUpdate]

theorem lcaStep_iter (cfg : LCAConfig α) (rhs : α) (ω : ℕ → α)
    (st : TrialState α) : (lcaStep cfg rhs ω st).iter = st.iter + 1 := rfl

theorem lcaStep_resp_pos (cfg : LCAConfig α) (rhs : α) (ω : ℕ → α)
    (st : TrialState α) (h : st.winner = true → 1 ≤ st.resp) :
    (lcaStep cfg rhs ω st).winner = true → 1 ≤ (lcaStep cfg rhs ω st).resp :=
  checkLoop_resp_pos cfg.Z _ _ _ _ h

theorem lcaStep_winner_false (cfg : LCAConfig α) (rhs : α) (ω : ℕ → α)
    (st : TrialState α) (h : (lcaStep cfg rhs ω st).winner = false) :
    (lcaStep cfg rhs ω st).resp = st.resp ∧ st.winner = false :=
  checkLoop_false cfg.Z _ _ _ _ h

/-! ### Loop invariants of the do-while loop -/

theorem lcaRun_iter_le (cfg : LCAConfig α) (rhs : α) (ω : ℕ → α) :
    ∀ fuel (st : TrialState α),
      (lcaRun cfg rhs ω fuel st).iter ≤ max (st.iter + 1) cfg.maxiter := by
  intro fuel
  induction fuel with
  | zero =>
    intro st
    rw [lcaRun, lcaStep_iter]
    exact le_max_left _ _
  | succ n ih =>
    intro st
    rw [lcaRun]
    by_cases h : (lcaStep cfg rhs ω st).iter < cfg.maxiter ∧
        (lcaStep cfg rhs ω st).winner = false
    · rw [if_pos h]
      refine le_trans (ih _) (max_le ?_ (le_max_right _ _))
      have := h.1
      rw [lcaStep_iter] at this ⊢
      exact le_trans (by omega) (le_max_right _ _)
    · rw [if_neg h, lcaStep_iter]
      exact le_max_left _ _

theorem lcaRun_iter_ge (cfg : LCAConfig α) (rhs : α) (ω : ℕ → α) :
    ∀ fuel (st : TrialState α),
      st.iter + 1 ≤ (lcaRun cfg rhs ω fuel st).iter := by
  intro fuel
  induction fuel with
  | zero => intro st; rw [lcaRun, lcaStep_iter]
  | succ n ih =>
    intro st
    rw [lcaRun]
    by_cases h : (lcaStep cfg rhs ω st).iter < cfg.maxiter ∧
        (lcaStep cfg rhs ω st).winner = false
    · rw [if_pos h]
      refine le_trans ?_ (ih _)
      rw [lcaStep_iter]
      omega
    · rw [if_neg h, lcaStep_iter]

theorem lcaRun_timeout (cfg : LCAConfig α) (rhs : α) (ω : ℕ → α) :
    ∀ fuel (st : TrialState α), cfg.maxiter ≤ st.iter + fuel + 1 →
      (lcaRun cfg rhs ω fuel st).winner = false →
      cfg.maxiter ≤ (lcaRun cfg rhs ω fuel st).iter := by
  intro fuel
  induction fuel with
  | zero =>
    intro st hfuel _
    rw [lcaRun, lcaStep_iter]
    omega
  | succ n ih =>
    intro st hfuel hw
    rw [lcaRun] at hw ⊢
    by_cases h : (lcaStep cfg rhs ω st).iter < cfg.maxiter ∧
        (lcaStep cfg rhs ω st).winner = false
    · rw [if_pos h] at hw ⊢
      refine ih _ ?_ hw
      rw [lcaStep_iter]
      omega
    · rw [if_neg h] at hw ⊢
      rw [lcaStep_iter]
      rcases not_and_or.mp h with h1 | h2
      · rw [lcaStep_iter] at h1; omega
      · exact absurd hw h2

theorem lcaRun_resp_pos (cfg : LCAConfig α) (rhs : α) (ω : ℕ → α) :
    ∀ fuel (st : TrialState α), (st.winner = true → 1 ≤ st.resp) →
      (lcaRun cfg rhs ω fuel st).winner = true →
      1 ≤ (lcaRun cfg rhs ω fuel st).resp := by
  intro fuel
  induction fuel with
  | zero => intro st h; rw [lcaRun]; exact lcaStep_resp_pos cfg rhs ω st h
  | succ n ih =>
    intro st h
    rw [lcaRun]
    by_cases hc : (lcaStep cfg rhs ω st).iter < cfg.maxiter ∧
        (lcaStep cfg rhs ω st).winner = false
    · rw [if_pos hc]
      exact ih _ (lcaStep_resp_pos cfg rhs ω st h)
    · rw [if_neg hc]
      exact lcaStep_resp_pos cfg rhs ω st h

theorem lcaRun_winner_false_resp (cfg : LCAConfig α) (rhs : α) (ω : ℕ → α) :
    ∀ fuel (st : TrialState α),
      (lcaRun cfg rhs ω fuel st).winner = false →
      (lcaRun cfg rhs ω fuel st).resp = st.resp := by
  intro fuel
  induction fuel with
  | zero =>
    intro st h
    rw [lcaRun] at h ⊢
    exact (lcaStep_winner_false cfg rhs ω st h).1
  | succ n ih =>
    intro st h
    rw [lcaRun] at h ⊢
    by_cases hc : (lcaStep cfg rhs ω st).iter < cfg.maxiter ∧
        (lcaStep cfg rhs ω st).winner = false
    · rw [if_pos hc] at h ⊢
      rw [ih _ h]
      exact (lcaStep_winner_false cfg rhs ω st hc.2).1
    · rw [if_neg hc] at h ⊢
      exact (lcaStep_winner_false cfg rhs ω st h).1

/-! ### Trial-level consequences -/

theorem simulateTrial_iter_le (cfg : LCAConfig α) (rhs : α) (ω : ℕ → α)
    (cnt : ℕ) (hmax : 1 ≤ cfg.maxiter) :
    (simulateTrial cfg rhs ω cnt).iter ≤ cfg.maxiter := by
  have h := lcaRun_iter_le cfg rhs ω cfg.maxiter (initState cfg cnt)
  rw [simulateTrial]
  have : (initState cfg cnt).iter = 0 := rfl
  rw [this] at h
  omega

theorem simulateTrial_iter_pos (cfg : LCAConfig α) (rhs : α) (ω : ℕ → α)
    (cnt : ℕ) : 1 ≤ (simulateTrial cfg rhs ω cnt).iter := by
  have h := lcaRun_iter_ge cfg rhs ω cfg.maxiter (initState cfg cnt)
  have h0 : (initState cfg cnt).iter = 0 := rfl
  rw [h0] at h
  exact h

theorem simulateTrial_resp_pos (cfg : LCAConfig α) (rhs : α) (ω : ℕ → α)
    (cnt : ℕ) (h : (simulateTrial cfg rhs ω cnt).winner = true) :
    1 ≤ (simulateTrial cfg rhs ω cnt).resp := by
  refine lcaRun_resp_pos cfg rhs ω cfg.maxiter (initState cfg cnt) ?_ h
  intro hw
  exact absurd hw (by rw [show (initState cfg cnt).winner = false from rfl]; simp)

theorem simulateTrial_noresp_iter (cfg : LCAConfig α) (rhs : α) (ω : ℕ → α)
    (cnt : ℕ) (hmax : 1 ≤ cfg.maxiter)
    (h : (simulateTrial cfg rhs ω cnt).resp = -1) :
    (simulateTrial cfg rhs ω cnt).iter = cfg.maxiter := by
  have hw : (simulateTrial cfg rhs ω cnt).winner = false := by
    rcases Bool.eq_false_or_eq_true (simulateTrial cfg rhs ω cnt).winner with
      h1 | h1
    · have := simulateTrial_resp_pos cfg rhs ω cnt h1
      omega
    · exact h1
  have h1 : cfg.maxiter ≤ (simulateTrial cfg rhs ω cnt).iter :=
    lcaRun_timeout cfg rhs ω cfg.maxiter (initState cfg cnt)
      (by rw [show (initState cfg cnt).iter = 0 from rfl]; omega) hw
  have h2 := simulateTrial_iter_le cfg rhs ω cnt hmax
  omega

theorem simulateTrials_length (cfg : LCAConfig α) (rhs : α) (ω : ℕ → α) :
    ∀ n cnt, (simulateTrials cfg rhs ω cnt n).length = n := by
  intro n
  induction n with
  | zero => intro cnt; rfl
  | succ m ih => intro cnt; rw [simulateTrials]; simp [ih]

theorem mem_simulateTrials (cfg : LCAConfig α) (rhs : α) (ω : ℕ → α) :
    ∀ n cnt (st : TrialState α), st ∈ simulateTrials cfg rhs ω cnt n →
      ∃ c, st = simulateTrial cfg rhs ω c := by
  intro n
  induction n with
  | zero => intro cnt st h; simp [simulateTrials] at h
  | succ m ih =>
    intro cnt st h
    rw [simulateTrials] at h
    rcases List.mem_cons.mp h with h1 | h1
    · exact ⟨cnt, h1⟩
    · exact ih _ _ h1

theorem getD_map_lt {β γ : Type} (f : β → γ) (l : List β) (i : ℕ) (d : γ)
    (d2 : β) (h : i < l.length) :
    (l.map f).getD i d = f (l.getD i d2) := by
  rw [List.getD_eq_getElem _ _ (by simpa using h),
    List.getD_eq_getElem _ _ h, List.getElem_map]

theorem getD_range_map {β : Type} (n : ℕ) (f : ℕ → β) (z : ℕ) (hz : z < n)
    (d : β) : ((List.range n).map f).getD z d = f z := by
  rw [List.getD_eq_getElem _ _ (by simpa using hz), List.getElem_map,
    List.getElem_range]

theorem lcaStep_resp_eq (cfg : LCAConfig α) (rhs : α) (ω : ℕ → α)
    (st : TrialState α) :
    (lcaStep cfg rhs ω st).resp =
      (checkLoop cfg.Z 0 (lcaUpdate cfg rhs ω st.cnt st.x)
        st.resp st.winner).1 := rfl

theorem lcaStep_x_eq (cfg : LCAConfig α) (rhs : α) (ω : ℕ → α)
    (st : TrialState α) :
    (lcaStep cfg rhs ω st).x =
      clampNeg cfg (lcaUpdate cfg rhs ω st.cnt st.x) := rfl

/-! ### Claim theorems -/

/-- Claim C1, amended: for every trial of a batch, `response = -1` implies
`reactionTime = maxIter*dt - dt/2` (the time-out value); conversely a
reaction time equal to the time-out value implies only that the trial used
exactly `maxIter` steps (the response may still be a crossing found on the
very last step); and whenever `response ≠ -1` the crossing step began with
`iter < maxIter`, i.e. the final counter satisfies `iter ≤ maxIter`. -/
theorem lca_C1_sentinel (cfg : LCAConfig α) (rhs : α) (ω : ℕ → α)
    (cnt n : ℕ) (st : TrialState α) (hdt : 0 < cfg.dt)
    (hmax : 1 ≤ cfg.maxiter) (hst : st ∈ simulateTrials cfg rhs ω cnt n) :
    (st.resp = -1 → rtOf cfg st = (cfg.maxiter : α) * cfg.dt - cfg.dt / 2) ∧
    (rtOf cfg st = (cfg.maxiter : α) * cfg.dt - cfg.dt / 2 →
      st.iter = cfg.maxiter) ∧
    (st.resp ≠ -1 → st.iter ≤ cfg.maxiter) := by
  obtain ⟨c, rfl⟩ := mem_simulateTrials cfg rhs ω n cnt st hst
  refine ⟨?_, ?_, ?_⟩
  · intro h
    rw [rtOf, simulateTrial_noresp_iter cfg rhs ω c hmax h]
  · intro h
    rw [rtOf] at h
    have h2 : ((simulateTrial cfg rhs ω c).iter : α) * cfg.dt =
        (cfg.maxiter : α) * cfg.dt := by linarith
    have h3 : ((simulateTrial cfg rhs ω c).iter : α) = (cfg.maxiter : α) :=
      mul_right_cancel₀ (ne_of_gt hdt) h2
    exact_mod_cast h3
  · intro _
    exact simulateTrial_iter_le cfg rhs ω c hmax

/-- Configuration refuting the unamended claim C1: one accumulator that
crosses threshold exactly on step `maxiter = 1`. -/
def cfgC1 : LCAConfig ℝ :=
  ⟨1, fun _ => 1, 0, 0, 1, 0, 1, 1, false, fun _ => 0⟩

/-- Claim C1, counterexample to the original `⟺`: with one accumulator,
`I = 1`, `kappa = beta = 0`, `Z = 1`, `s = 0`, `dt = 1`, `maxIter = 1`,
the single trial crosses threshold on step 1 (= `maxIter`), so its
response is `1 ≠ -1` while its reaction time equals the time-out value
`maxIter*dt - dt/2`, refuting `reactionTime = timeout → response = -1`. -/
theorem lca_C1_counterexample :
    0 < cfgC1.dt ∧ 1 ≤ cfgC1.maxiter ∧
    (simulateLCA cfgC1 (fun _ => 0) 1).1.getD 0 0 ≠ -1 ∧
    (simulateLCA cfgC1 (fun _ => 0) 1).1 = [1] ∧
    (simulateLCA cfgC1 (fun _ => 0) 1).2 =
      [(cfgC1.maxiter : ℝ) * cfgC1.dt - cfgC1.dt / 2] := by
  refine ⟨by norm_num [cfgC1], by norm_num [cfgC1], ?_, ?_, ?_⟩ <;>
    norm_num [simulateLCA, respOut, rtOut, rtOf, simulateTrials,
      simulateTrial, lcaRun, lcaStep, lcaUpdate, contributions, checkLoop,
      clampNeg, initState, noiseFactor, cfgC1, List.range_succ]

/-- Time-out configuration over `ℚ` used as concrete instance for the
amended claim C1. -/
def cfgC1w : LCAConfig ℚ :=
  ⟨1, fun _ => 0, 0, 0, 1, 0, 1, 2, false, fun _ => 0⟩

/-- Claim C1, witness: the amended theorem applied to the single trial of
a concrete time-out batch. -/
theorem lca_C1_witness :
    0 < cfgC1w.dt ∧ 1 ≤ cfgC1w.maxiter ∧
    simulateTrial (α := ℚ) cfgC1w 0 (fun _ => 0) 0 ∈
      simulateTrials cfgC1w 0 (fun _ => 0) 0 1 ∧
    (((simulateTrial (α := ℚ) cfgC1w 0 (fun _ => 0) 0).resp = -1 →
        rtOf cfgC1w (simulateTrial cfgC1w 0 (fun _ => 0) 0) =
          (cfgC1w.maxiter : ℚ) * cfgC1w.dt - cfgC1w.dt / 2) ∧
      (rtOf cfgC1w (simulateTrial cfgC1w 0 (fun _ => 0) 0) =
          (cfgC1w.maxiter : ℚ) * cfgC1w.dt - cfgC1w.dt / 2 →
        (simulateTrial cfgC1w 0 (fun _ => 0) 0).iter = cfgC1w.maxiter) ∧
      ((simulateTrial cfgC1w 0 (fun _ => 0) 0).resp ≠ -1 →
        (simulateTrial cfgC1w 0 (fun _ => 0) 0).iter ≤ cfgC1w.maxiter)) := by
  have h1 : (0 : ℚ) < cfgC1w.dt := by norm_num [cfgC1w]
  have h2 : 1 ≤ cfgC1w.maxiter := by norm_num [cfgC1w]
  have h3 : simulateTrial (α := ℚ) cfgC1w 0 (fun _ => 0) 0 ∈
      simulateTrials cfgC1w 0 (fun _ => 0) 0 1 := by
    simp [simulateTrials]
  exact ⟨h1, h2, h3,
    lca_C1_sentinel cfgC1w 0 (fun _ => 0) 0 1 _ h1 h2 h3⟩

/-- Claim C2: each accumulator is updated as
`x[z] <- x[z] + dt*I[z] - dt*kappa*x[z] - sum + contribution[z] + rhs*noise`,
with `contribution[z] = x[z]*dt*beta` and
`sum = Σ contribution` both computed from the pre-step snapshot of `x`
(no accumulator reads a partially-updated value).  Stated here for the
linear engine (`nonLinear = false`, so the clamp is the identity and the
post-step vector is exactly the update's output). -/
theorem lca_C2_update_formula (cfg : LCAConfig α) (rhs : α) (ω : ℕ → α)
    (st : TrialState α) (z : ℕ) (hnl : cfg.nonLinear = false)
    (hz : z < cfg.nAcc) :
    (lcaStep cfg rhs ω st).x.getD z 0 =
      st.x.getD z 0 + cfg.dt * cfg.I z - cfg.dt * cfg.kappa * st.x.getD z 0
        - ((List.range cfg.nAcc).map
            (fun a => st.x.getD a 0 * cfg.dt * cfg.beta)).sum
        + st.x.getD z 0 * cfg.dt * cfg.beta + rhs * ω (st.cnt + z) := by
  rw [lcaStep_x_eq, clampNeg, hnl]
  simp only [Bool.false_eq_true, if_false]
  simp only [lcaUpdate]
  rw [getD_range_map _ _ _ hz]
  simp only [contributions]
  rw [getD_range_map _ _ _ hz]
  ring

/-- Concrete configuration for the claim C2 witness. -/
def cfgC2 : LCAConfig ℚ :=
  ⟨2, fun z => (z : ℚ), 3, 5, 100, 0, 1, 2, false, fun _ => 0⟩

/-- Claim C2, witness: the update formula evaluated for accumulator 1 of a
concrete two-accumulator state. -/
theorem lca_C2_witness :
    cfgC2.nonLinear = false ∧ 1 < cfgC2.nAcc ∧
    (lcaStep cfgC2 0 (fun _ => 0)
        ⟨[4, 7], -1, false, 0, 0⟩).x.getD 1 0 =
      ([(4 : ℚ), 7].getD 1 0 + cfgC2.dt * cfgC2.I 1
        - cfgC2.dt * cfgC2.kappa * [(4 : ℚ), 7].getD 1 0
        - ((List.range cfgC2.nAcc).map
            (fun a => [(4 : ℚ), 7].getD a 0 * cfgC2.dt * cfgC2.beta)).sum
        + [(4 : ℚ), 7].getD 1 0 * cfgC2.dt * cfgC2.beta
        + 0 * (fun _ => (0 : ℚ)) (0 + 1)) :=
  ⟨rfl, by norm_num [cfgC2],
    lca_C2_update_formula cfgC2 0 (fun _ => 0)
      ⟨[4, 7], -1, false, 0, 0⟩ 1 rfl (by norm_num [cfgC2])⟩

/-- Claim C3: if two or more accumulators have updated values `≥ Z` in the
same step, the recorded response is the 1-based index of the
highest-index crossing accumulator (the check loop overwrites on every
crossing in index order). -/
theorem lca_C3_tie_break (cfg : LCAConfig α) (rhs : α) (ω : ℕ → α)
    (st : TrialState α) (j : ℕ) (hj : j < cfg.nAcc)
    (hc : cfg.Z ≤ (lcaUpdate cfg rhs ω st.cnt st.x).getD j 0)
    (hafter : ∀ i, j < i → i < cfg.nAcc →
      ¬ cfg.Z ≤ (lcaUpdate cfg rhs ω st.cnt st.x).getD i 0)
    (_hmulti : ∃ j2, j2 < j ∧
      cfg.Z ≤ (lcaUpdate cfg rhs ω st.cnt st.x).getD j2 0) :
    (lcaStep cfg rhs ω st).resp = (j : Int) + 1 := by
  have hlen : (lcaUpdate cfg rhs ω st.cnt st.x).length = cfg.nAcc :=
    lcaUpdate_length cfg rhs ω st.cnt st.x
  have h := checkLoop_last cfg.Z (lcaUpdate cfg rhs ω st.cnt st.x)
    0 st.resp st.winner j (by rw [hlen]; exact hj) hc
    (fun i h1 h2 => hafter i h1 (by rw [hlen] at h2; exact h2))
  rw [lcaStep_resp_eq, h]
  simp

/-- Concrete configuration for the claim C3 witness: two accumulators that
both cross on the first step. -/
def cfgC3 : LCAConfig ℚ :=
  ⟨2, fun _ => 1, 0, 0, 1, 0, 1, 5, false, fun _ => 0⟩

/-- Claim C3, witness: both accumulators of a concrete two-accumulator
state cross in the same step and the response is `2`, the 1-based index of
the higher crossing accumulator. -/
theorem lca_C3_witness :
    1 < cfgC3.nAcc ∧
    cfgC3.Z ≤ (lcaUpdate cfgC3 0 (fun _ => 0) 0
      (initState cfgC3 0).x).getD 1 0 ∧
    cfgC3.Z ≤ (lcaUpdate cfgC3 0 (fun _ => 0) 0
      (initState cfgC3 0).x).getD 0 0 ∧
    (lcaStep cfgC3 0 (fun _ => 0) (initState cfgC3 0)).resp = 2 := by
  have ha : (1 : ℕ) < cfgC3.nAcc := by norm_num [cfgC3]
  have hb : cfgC3.Z ≤ (lcaUpdate cfgC3 0 (fun _ => 0) 0
      (initState cfgC3 0).x).getD 1 0 := by
    norm_num [lcaUpdate, contributions, initState, cfgC3, List.range_succ]
  have hb0 : cfgC3.Z ≤ (lcaUpdate cfgC3 0 (fun _ => 0) 0
      (initState cfgC3 0).x).getD 0 0 := by
    norm_num [lcaUpdate, contributions, initState, cfgC3, List.range_succ]
  have hc := lca_C3_tie_break cfgC3 0 (fun _ => 0) (initState cfgC3 0) 1
    ha hb (fun i h1 h2 => absurd h1 (by
      have : cfgC3.nAcc = 2 := rfl
      omega))
    ⟨0, by norm_num, hb0⟩
  exact ⟨ha, hb, hb0, by rw [hc]; norm_num⟩

/-- Claim C4: for every trial `i` of a batch, the reported reaction time
is `iter*dt - dt/2` with `iter` the final value of the trial's step
counter, and for no-response trials it equals the elapsed time-out
duration `maxIter*dt - dt/2`. -/
theorem lca_C4_reaction_time (cfg : LCAConfig α) (rhs : α) (ω : ℕ → α)
    (cnt n i : ℕ) (hmax : 1 ≤ cfg.maxiter) (hi : i < n) :
    (rtOut cfg rhs ω cnt n).getD i 0 =
      rtOf cfg ((simulateTrials cfg rhs ω cnt n).getD i (initState cfg 0)) ∧
    ((respOut cfg rhs ω cnt n).getD i 0 = -1 →
      (rtOut cfg rhs ω cnt n).getD i 0 =
        (cfg.maxiter : α) * cfg.dt - cfg.dt / 2) := by
  have hlen : i < (simulateTrials cfg rhs ω cnt n).length := by
    rw [simulateTrials_length]; exact hi
  have hrt : (rtOut cfg rhs ω cnt n).getD i 0 =
      rtOf cfg ((simulateTrials cfg rhs ω cnt n).getD i (initState cfg 0)) := by
    rw [rtOut]; exact getD_map_lt _ _ _ _ _ hlen
  refine ⟨hrt, ?_⟩
  intro h
  rw [respOut, getD_map_lt (fun st : TrialState α => st.resp) _ i 0
    (initState cfg 0) hlen] at h
  rw [hrt]
  have hmem : (simulateTrials cfg rhs ω cnt n).getD i (initState cfg 0) ∈
      simulateTrials cfg rhs ω cnt n := by
    rw [List.getD_eq_getElem _ _ hlen]
    exact List.getElem_mem hlen
  obtain ⟨c, hc⟩ := mem_simulateTrials cfg rhs ω n cnt _ hmem
  rw [hc] at h ⊢
  rw [rtOf, simulateTrial_noresp_iter cfg rhs ω c hmax h]

/-- Concrete time-out configuration for the claim C4 witness. -/
def cfgC4 : LCAConfig ℚ :=
  ⟨1, fun _ => 0, 0, 0, 1, 0, 1, 3, false, fun _ => 0⟩

/-- Claim C4, witness: the theorem applied to trial 0 of a concrete
one-trial batch. -/
theorem lca_C4_witness :
    1 ≤ cfgC4.maxiter ∧ 0 < 1 ∧
    ((rtOut (α := ℚ) cfgC4 0 (fun _ => 0) 0 1).getD 0 0 =
      rtOf cfgC4 ((simulateTrials cfgC4 0 (fun _ => 0) 0 1).getD 0
        (initState cfgC4 0)) ∧
    ((respOut (α := ℚ) cfgC4 0 (fun _ => 0) 0 1).getD 0 0 = -1 →
      (rtOut (α := ℚ) cfgC4 0 (fun _ => 0) 0 1).getD 0 0 =
        (cfgC4.maxiter : ℚ) * cfgC4.dt - cfgC4.dt / 2)) := by
  have h1 : 1 ≤ cfgC4.maxiter := by norm_num [cfgC4]
  exact ⟨h1, by norm_num,
    lca_C4_reaction_time cfgC4 0 (fun _ => 0) 0 1 0 h1 (by norm_num)⟩

/-- Claim C5: with a single accumulator, `beta` has no effect on the
simulated trial, because the inhibition sum equals the accumulator's own
contribution and cancels; the per-step update reduces to the leaky
integrator `x <- x + dt*(I - kappa*x) + rhs*noise`. -/
theorem lca_C5_beta_cancel (cfg : LCAConfig α) (b rhs : α) (ω : ℕ → α)
    (cnt : ℕ) (v : α) (h1 : cfg.nAcc = 1) :
    simulateTrial {cfg with beta := b} rhs ω cnt =
      simulateTrial cfg rhs ω cnt ∧
    lcaUpdate cfg rhs ω cnt [v] =
      [v + cfg.dt * (cfg.I 0 - cfg.kappa * v) + rhs * ω cnt] := by
  have hupd : ∀ c2 (x : List α),
      lcaUpdate {cfg with beta := b} rhs ω c2 x =
        lcaUpdate cfg rhs ω c2 x := by
    intro c2 x
    simp only [lcaUpdate, contributions, h1,
      show List.range 1 = [0] from rfl, List.map_cons, List.map_nil,
      List.sum_cons, List.sum_nil, List.getD_cons_zero, List.cons.injEq,
      and_true]
    ring
  have hstep : ∀ st2 : TrialState α,
      lcaStep {cfg with beta := b} rhs ω st2 = lcaStep cfg rhs ω st2 := by
    intro st2
    simp only [lcaStep, hupd]
    rfl
  have hrun : ∀ fuel (st2 : TrialState α),
      lcaRun {cfg with beta := b} rhs ω fuel st2 =
        lcaRun cfg rhs ω fuel st2 := by
    intro fuel
    induction fuel with
    | zero => intro st2; rw [lcaRun, lcaRun, hstep]
    | succ m ih =>
      intro st2
      simp only [lcaRun, hstep]
      split
      · exact ih _
      · rfl
  constructor
  · rw [simulateTrial, simulateTrial,
      show initState {cfg with beta := b} cnt = initState cfg cnt from rfl,
      show ({cfg with beta := b} : LCAConfig α).maxiter = cfg.maxiter
        from rfl, hrun]
  · simp only [lcaUpdate, contributions, h1,
      show List.range 1 = [0] from rfl, List.map_cons, List.map_nil,
      List.sum_cons, List.sum_nil, List.getD_cons_zero, List.cons.injEq,
      and_true]
    ring_nf

/-- Concrete single-accumulator configuration for the claim C5 witness. -/
def cfgC5 : LCAConfig ℚ :=
  ⟨1, fun _ => 2, 3, 5, 7, 0, 1, 2, false, fun _ => 0⟩

/-- Claim C5, witness: changing `beta` from 5 to 9 leaves a concrete
single-accumulator trial unchanged, and the update formula reduces to the
leaky integrator there. -/
theorem lca_C5_witness :
    cfgC5.nAcc = 1 ∧
    (simulateTrial {cfgC5 with beta := 9} 0 (fun _ => 0) 0 =
      simulateTrial cfgC5 0 (fun _ => 0) 0 ∧
    lcaUpdate cfgC5 0 (fun _ => 0) 0 [4] =
      [4 + cfgC5.dt * (cfgC5.I 0 - cfgC5.kappa * 4) +
        0 * (fun _ => (0 : ℚ)) 0]) :=
  ⟨rfl, lca_C5_beta_cancel cfgC5 9 0 (fun _ => 0) 0 4 rfl⟩

/-- Claim C10: every trial executes at least one full update step (the
inner loop is a do-while), so the final step counter satisfies
`1 ≤ iter ≤ maxIter` and the reported reaction time is at least `dt/2`. -/
theorem lca_C10_do_while (cfg : LCAConfig α) (rhs : α) (ω : ℕ → α)
    (cnt n : ℕ) (st : TrialState α) (hdt : 0 < cfg.dt)
    (hmax : 1 ≤ cfg.maxiter) (hst : st ∈ simulateTrials cfg rhs ω cnt n) :
    1 ≤ st.iter ∧ st.iter ≤ cfg.maxiter ∧ cfg.dt / 2 ≤ rtOf cfg st := by
  obtain ⟨c, rfl⟩ := mem_simulateTrials cfg rhs ω n cnt st hst
  refine ⟨simulateTrial_iter_pos cfg rhs ω c,
    simulateTrial_iter_le cfg rhs ω c hmax, ?_⟩
  rw [rtOf]
  have h1 : (1 : α) ≤ ((simulateTrial cfg rhs ω c).iter : α) := by
    exact_mod_cast simulateTrial_iter_pos cfg rhs ω c
  have h2 : 1 * cfg.dt ≤ ((simulateTrial cfg rhs ω c).iter : α) * cfg.dt :=
    mul_le_mul_of_nonneg_right h1 hdt.le
  linarith

/-- Concrete configuration for the claim C10 witness: the starting point
is already above threshold, yet one step still runs. -/
def cfgC10 : LCAConfig ℚ :=
  ⟨1, fun _ => 0, 0, 0, 1, 0, 1, 4, false, fun _ => 5⟩

/-- Claim C10, witness: the theorem applied to the single trial of a
concrete batch whose start point `x0 = 5` already exceeds `Z = 1`. -/
theorem lca_C10_witness :
    0 < cfgC10.dt ∧ 1 ≤ cfgC10.maxiter ∧
    simulateTrial (α := ℚ) cfgC10 0 (fun _ => 0) 0 ∈
      simulateTrials cfgC10 0 (fun _ => 0) 0 1 ∧
    (1 ≤ (simulateTrial (α := ℚ) cfgC10 0 (fun _ => 0) 0).iter ∧
      (simulateTrial (α := ℚ) cfgC10 0 (fun _ => 0) 0).iter ≤
        cfgC10.maxiter ∧
      cfgC10.dt / 2 ≤ rtOf cfgC10
        (simulateTrial (α := ℚ) cfgC10 0 (fun _ => 0) 0)) := by
  have h1 : (0 : ℚ) < cfgC10.dt := by norm_num [cfgC10]
  have h2 : 1 ≤ cfgC10.maxiter := by norm_num [cfgC10]
  have h3 : simulateTrial (α := ℚ) cfgC10 0 (fun _ => 0) 0 ∈
      simulateTrials cfgC10 0 (fun _ => 0) 0 1 := by
    simp [simulateTrials]
  exact ⟨h1, h2, h3,
    lca_C10_do_while cfgC10 0 (fun _ => 0) 0 1 _ h1 h2 h3⟩

/-! ### Zero-noise determinism lemmas -/

theorem lcaUpdate_rhs_zero (cfg : LCAConfig α) (ω1 ω2 : ℕ → α) (cnt : ℕ)
    (x : List α) : lcaUpdate cfg 0 ω1 cnt x = lcaUpdate cfg 0 ω2 cnt x := by
  simp [lcaUpdate]

theorem lcaStep_rhs_zero (cfg : LCAConfig α) (ω1 ω2 : ℕ → α)
    (st : TrialState α) : lcaStep cfg 0 ω1 st = lcaStep cfg 0 ω2 st := by
  simp only [lcaStep, lcaUpdate_rhs_zero cfg ω1 ω2]

theorem lcaRun_rhs_zero (cfg : LCAConfig α) (ω1 ω2 : ℕ → α) :
    ∀ fuel (st : TrialState α),
      lcaRun cfg 0 ω1 fuel st = lcaRun cfg 0 ω2 fuel st := by
  intro fuel
  induction fuel with
  | zero => intro st; rw [lcaRun, lcaRun, lcaStep_rhs_zero cfg ω1 ω2]
  | succ m ih =>
    intro st
    simp only [lcaRun, lcaStep_rhs_zero cfg ω1 ω2]
    split
    · exact ih _
    · rfl

theorem simulateTrial_rhs_zero (cfg : LCAConfig α) (ω1 ω2 : ℕ → α)
    (cnt : ℕ) : simulateTrial cfg 0 ω1 cnt = simulateTrial cfg 0 ω2 cnt := by
  rw [simulateTrial, simulateTrial, lcaRun_rhs_zero cfg ω1 ω2]

theorem simulateTrials_rhs_zero (cfg : LCAConfig α) (ω1 ω2 : ℕ → α) :
    ∀ n cnt, simulateTrials cfg 0 ω1 cnt n = simulateTrials cfg 0 ω2 cnt n := by
  intro n
  induction n with
  | zero => intro cnt; rfl
  | succ m ih =>
    intro cnt
    rw [simulateTrials, simulateTrials, simulateTrial_rhs_zero cfg ω1 ω2 cnt,
      ih]

/-- Claim C6: with `s = 0` the noise factor `sqrt(dt*s*s)` vanishes, so
two runs of the batch driver on the same configuration produce identical
trial states, responses and reaction times whatever the RNG stream
delivers. -/
theorem lca_C6_zero_noise (cfg : LCAConfig ℝ) (ω1 ω2 : ℕ → ℝ) (n : ℕ)
    (hs : cfg.s = 0) :
    simulateTrials cfg (noiseFactor cfg) ω1 0 n =
      simulateTrials cfg (noiseFactor cfg) ω2 0 n ∧
    simulateLCA cfg ω1 n = simulateLCA cfg ω2 n := by
  have h0 : noiseFactor cfg = 0 := by
    rw [noiseFactor, hs]
    simp
  have ht : simulateTrials cfg (noiseFactor cfg) ω1 0 n =
      simulateTrials cfg (noiseFactor cfg) ω2 0 n := by
    rw [h0]
    exact simulateTrials_rhs_zero cfg ω1 ω2 n 0
  refine ⟨ht, ?_⟩
  rw [simulateLCA, simulateLCA, respOut, respOut, rtOut, rtOut, ht]

/-- Concrete zero-noise configuration for the claim C6 witness. -/
def cfgC6 : LCAConfig ℝ :=
  ⟨2, fun _ => 1, 0, 0, 1, 0, 1, 3, false, fun _ => 0⟩

/-- Claim C6, witness: two different RNG streams give identical results on
a concrete zero-noise two-trial batch. -/
theorem lca_C6_witness :
    cfgC6.s = 0 ∧
    (simulateTrials cfgC6 (noiseFactor cfgC6) (fun _ => 0) 0 2 =
      simulateTrials cfgC6 (noiseFactor cfgC6) (fun _ => 1) 0 2 ∧
    simulateLCA cfgC6 (fun _ => 0) 2 = simulateLCA cfgC6 (fun _ => 1) 2) :=
  ⟨rfl, lca_C6_zero_noise cfgC6 (fun _ => 0) (fun _ => 1) 2 rfl⟩

/-- Claim C7: under the preconditions `s ≥ 0` and `dt > 0`, the factor
`sqrt(dt*s*s)` the engine multiplies each standard-normal draw with equals
`sqrt(dt) * s`. -/
theorem lca_C7_noise_factor (cfg : LCAConfig ℝ) (hs : 0 ≤ cfg.s)
    (hdt : 0 < cfg.dt) : noiseFactor cfg = Real.sqrt cfg.dt * cfg.s := by
  rw [noiseFactor, mul_assoc, Real.sqrt_mul hdt.le,
    Real.sqrt_mul_self hs]

/-- Concrete configuration for the claim C7 witness. -/
def cfgC7 : LCAConfig ℝ :=
  ⟨1, fun _ => 1, 0, 0, 1, 1, 1, 1, false, fun _ => 0⟩

/-- Claim C7, witness: the noise-factor identity at `s = 1`, `dt = 1`. -/
theorem lca_C7_witness :
    0 ≤ cfgC7.s ∧ 0 < cfgC7.dt ∧
    noiseFactor cfgC7 = Real.sqrt cfgC7.dt * cfgC7.s := by
  have h1 : (0 : ℝ) ≤ cfgC7.s := by norm_num [cfgC7]
  have h2 : (0 : ℝ) < cfgC7.dt := by norm_num [cfgC7]
  exact ⟨h1, h2, lca_C7_noise_factor cfgC7 h1 h2⟩

/-! ### Non-linearity clamp invariant -/

theorem clamp_entry_nonneg (l : List α) (z : ℕ) :
    0 ≤ (l.map (fun v => if v < 0 then 0 else v)).getD z 0 := by
  by_cases hz : z < l.length
  · rw [List.getD_eq_getElem _ _ (by simpa using hz), List.getElem_map]
    split
    · exact le_refl 0
    · next h => exact not_lt.mp h
  · rw [List.getD_eq_default _ _ (by simpa using not_lt.mp hz)]

/-- Claim C8: with `nonLinear = true` and `s = 0`, after the clamp at the
end of each step no accumulator value is ever below 0: every entry of the
state reached by `k ≥ 1` steps of the engine is nonnegative. -/
theorem lca_C8_clamp (cfg : LCAConfig ℝ) (ω : ℕ → ℝ) (st : TrialState ℝ)
    (k z : ℕ) (hnl : cfg.nonLinear = true) (_hs : cfg.s = 0) (hk : 1 ≤ k) :
    0 ≤ ((lcaStep cfg (noiseFactor cfg) ω)^[k] st).x.getD z 0 := by
  obtain ⟨k1, rfl⟩ : ∃ k1, k = k1 + 1 := ⟨k - 1, by omega⟩
  rw [Function.iterate_succ_apply', lcaStep_x_eq, clampNeg, hnl]
  simp only [if_true]
  exact clamp_entry_nonneg _ z

/-- Concrete non-linear configuration for the claim C8 witness: the start
point is negative, one step clamps it back to zero. -/
def cfgC8 : LCAConfig ℝ :=
  ⟨1, fun _ => 0, 0, 0, 1, 0, 1, 2, true, fun _ => -3⟩

/-- Claim C8, witness: after one step of a concrete non-linear zero-noise
trial the accumulator value is nonnegative. -/
theorem lca_C8_witness :
    cfgC8.nonLinear = true ∧ cfgC8.s = 0 ∧ 1 ≤ 1 ∧
    0 ≤ ((lcaStep cfgC8 (noiseFactor cfgC8) (fun _ => 0))^[1]
      (initState cfgC8 0)).x.getD 0 0 :=
  ⟨rfl, rfl, le_refl 1,
    lca_C8_clamp cfgC8 (fun _ => 0) (initState cfgC8 0) 1 0 rfl rfl
      (le_refl 1)⟩

/-! ### NaN propagation lemmas -/

theorem radd_nan_left (x : RVal) : radd RVal.nan x = RVal.nan := by
  cases x <;> rfl

theorem radd_nan_right (x : RVal) : radd x RVal.nan = RVal.nan := by
  cases x <;> rfl

theorem rsub_nan_left (x : RVal) : rsub RVal.nan x = RVal.nan := by
  cases x <;> rfl

theorem rmul_nan_left (x : RVal) : rmul RVal.nan x = RVal.nan := by
  cases x <;> rfl

theorem rge_nan_left (x : RVal) : rge RVal.nan x = false := by
  cases x <;> rfl

theorem rlt_nan_left (x : RVal) : rlt RVal.nan x = false := by
  cases x <;> rfl

theorem checkLoopN_no_cross (Z : RVal) (l : List RVal) :
    ∀ z r w, (∀ v ∈ l, rge v Z = false) →
      checkLoopN Z z l r w = (r, w) := by
  induction l with
  | nil => intro z r w _; rfl
  | cons a rest ih =>
    intro z r w hno
    have ha : ¬ rge a Z = true := by
      rw [hno a (List.mem_cons_self a rest)]
      simp
    rw [checkLoopN, if_neg ha]
    exact ih _ _ _ (fun v hv => hno v (List.mem_cons_of_mem a hv))

theorem lcaUpdateN_nan (cfg : LCAConfig RVal) (rhs : RVal) (ω : ℕ → RVal)
    (cnt : ℕ) (x : List RVal) (hall : ∀ v ∈ x, v = RVal.nan)
    (hlen : x.length = cfg.nAcc) :
    ∀ v ∈ lcaUpdateN cfg rhs ω cnt x, v = RVal.nan := by
  intro v hv
  simp only [lcaUpdateN, List.mem_map, List.mem_range] at hv
  obtain ⟨z, hz, rfl⟩ := hv
  have hxz : x.getD z (RVal.val 0) = RVal.nan := by
    rw [List.getD_eq_getElem _ _ (by omega)]
    exact hall _ (List.getElem_mem (by omega))
  rw [hxz, radd_nan_left, rsub_nan_left, rsub_nan_left, radd_nan_left,
    radd_nan_left]

theorem lcaStepN_nan (cfg : LCAConfig RVal) (rhs : RVal) (ω : ℕ → RVal)
    (st : TrialState RVal) (hall : ∀ v ∈ st.x, v = RVal.nan)
    (hlen : st.x.length = cfg.nAcc) :
    (∀ v ∈ (lcaStepN cfg rhs ω st).x, v = RVal.nan) ∧
    (lcaStepN cfg rhs ω st).x.length = cfg.nAcc ∧
    (lcaStepN cfg rhs ω st).resp = st.resp ∧
    (lcaStepN cfg rhs ω st).winner = st.winner ∧
    (lcaStepN cfg rhs ω st).iter = st.iter + 1 := by
  have hupd := lcaUpdateN_nan cfg rhs ω st.cnt st.x hall hlen
  have hulen : (lcaUpdateN cfg rhs ω st.cnt st.x).length = cfg.nAcc := by
    simp [lcaUpdateN]
  have hcheck := checkLoopN_no_cross cfg.Z
    (lcaUpdateN cfg rhs ω st.cnt st.x) 0 st.resp st.winner
    (fun v hv => by rw [hupd v hv]; exact rge_nan_left cfg.Z)
  refine ⟨?_, ?_, ?_, ?_, rfl⟩
  · intro v hv
    have hx : (lcaStepN cfg rhs ω st).x =
        clampNegN cfg (lcaUpdateN cfg rhs ω st.cnt st.x) := rfl
    rw [hx, clampNegN] at hv
    by_cases hnl : cfg.nonLinear
    · rw [if_pos hnl] at hv
      obtain ⟨u, hu, rfl⟩ := List.mem_map.mp hv
      rw [hupd u hu, rlt_nan_left]
      simp
    · rw [if_neg hnl] at hv
      exact hupd v hv
  · have hx : (lcaStepN cfg rhs ω st).x =
        clampNegN cfg (lcaUpdateN cfg rhs ω st.cnt st.x) := rfl
    rw [hx, clampNegN]
    by_cases hnl : cfg.nonLinear
    · rw [if_pos hnl]
      simpa using hulen
    · rw [if_neg hnl]
      exact hulen
  · show (checkLoopN cfg.Z 0 (lcaUpdateN cfg rhs ω st.cnt st.x)
      st.resp st.winner).1 = st.resp
    rw [hcheck]
  · show (checkLoopN cfg.Z 0 (lcaUpdateN cfg rhs ω st.cnt st.x)
      st.resp st.winner).2 = st.winner
    rw [hcheck]

theorem lcaRunN_nan (cfg : LCAConfig RVal) (rhs : RVal) (ω : ℕ → RVal) :
    ∀ fuel (st : TrialState RVal), (∀ v ∈ st.x, v = RVal.nan) →
      st.x.length = cfg.nAcc → st.winner = false → st.resp = -1 →
      (lcaRunN cfg rhs ω fuel st).resp = -1 ∧
      (lcaRunN cfg rhs ω fuel st).winner = false ∧
      (cfg.maxiter ≤ st.iter + fuel + 1 →
        (lcaRunN cfg rhs ω fuel st).iter = max (st.iter + 1) cfg.maxiter) := by
  intro fuel
  induction fuel with
  | zero =>
    intro st hall hlen hw hr
    have h := lcaStepN_nan cfg rhs ω st hall hlen
    rw [lcaRunN]
    refine ⟨by rw [h.2.2.1, hr], by rw [h.2.2.2.1, hw], ?_⟩
    intro hfuel
    rw [h.2.2.2.2]
    have : max (st.iter + 1) cfg.maxiter = st.iter + 1 :=
      max_eq_left (by omega)
    rw [this]
  | succ m ih =>
    intro st hall hlen hw hr
    have h := lcaStepN_nan cfg rhs ω st hall hlen
    rw [lcaRunN]
    by_cases hc : (lcaStepN cfg rhs ω st).iter < cfg.maxiter ∧
        (lcaStepN cfg rhs ω st).winner = false
    · rw [if_pos hc]
      have hrec := ih (lcaStepN cfg rhs ω st) h.1 h.2.1
        (by rw [h.2.2.2.1, hw]) (by rw [h.2.2.1, hr])
      refine ⟨hrec.1, hrec.2.1, ?_⟩
      intro hfuel
      have h5 := hrec.2.2 (by rw [h.2.2.2.2]; omega)
      rw [h5, h.2.2.2.2]
      have hlt : st.iter + 1 < cfg.maxiter := by
        have := hc.1
        rw [h.2.2.2.2] at this
        omega
      rw [max_eq_right (by omega), max_eq_right (by omega)]
    · rw [if_neg hc]
      refine ⟨by rw [h.2.2.1, hr], by rw [h.2.2.2.1, hw], ?_⟩
      intro hfuel
      rcases not_and_or.mp hc with h1 | h1
      · rw [h.2.2.2.2] at h1 ⊢
        rw [max_eq_left (by omega)]
      · exact absurd (by rw [h.2.2.2.1, hw]) h1

/-- Claim C9: the IEEE comparison of a NaN activation against the
threshold is false in every step, NaN activations stay NaN through a step,
and a trial whose activations are all NaN runs to the step budget and
terminates as a no-response outcome (`resp = -1` after `maxIter` steps)
instead of crashing. -/
theorem lca_C9_nan (cfg : LCAConfig RVal) (rhs : RVal) (ω : ℕ → RVal)
    (cnt z2 : ℕ) (y : RVal) (st : TrialState RVal)
    (hx0 : ∀ z, cfg.x0 z = RVal.nan) (hm : 1 ≤ cfg.maxiter)
    (hall : ∀ v ∈ st.x, v = RVal.nan) (hlen : st.x.length = cfg.nAcc) :
    rge RVal.nan y = false ∧
    (lcaStepN cfg rhs ω st).x.getD z2 RVal.nan = RVal.nan ∧
    (simulateTrialN cfg rhs ω cnt).resp = -1 ∧
    (simulateTrialN cfg rhs ω cnt).iter = cfg.maxiter := by
  have hinit_all : ∀ v ∈ (initStateN cfg cnt).x, v = RVal.nan := by
    intro v hv
    simp only [initStateN, List.mem_map] at hv
    obtain ⟨z, _, rfl⟩ := hv
    exact hx0 z
  have hinit_len : (initStateN cfg cnt).x.length = cfg.nAcc := by
    simp [initStateN]
  have hrun := lcaRunN_nan cfg rhs ω cfg.maxiter (initStateN cfg cnt)
    hinit_all hinit_len rfl rfl
  refine ⟨rge_nan_left y, ?_, hrun.1, ?_⟩
  · by_cases h : z2 < (lcaStepN cfg rhs ω st).x.length
    · rw [List.getD_eq_getElem _ _ h]
      exact (lcaStepN_nan cfg rhs ω st hall hlen).1 _ (List.getElem_mem h)
    · rw [List.getD_eq_default _ _ (not_lt.mp h)]
  · have h5 := hrun.2.2 (by
      rw [show (initStateN cfg cnt).iter = 0 from rfl]
      omega)
    rw [show (initStateN cfg cnt).iter = 0 from rfl] at h5
    have : (simulateTrialN cfg rhs ω cnt).iter =
        (lcaRunN cfg rhs ω cfg.maxiter (initStateN cfg cnt)).iter := rfl
    rw [this, h5]
    exact max_eq_right hm

/-- Concrete NaN configuration for the claim C9 witness: the single
start point is NaN. -/
def cfgC9 : LCAConfig RVal :=
  ⟨1, fun _ => RVal.val 1, RVal.val 0, RVal.val 0, RVal.val 1, RVal.val 0,
    RVal.val 1, 2, false, fun _ => RVal.nan⟩

/-- Claim C9, witness: a concrete all-NaN trial times out with
`resp = -1` after `maxIter = 2` steps. -/
theorem lca_C9_witness :
    1 ≤ cfgC9.maxiter ∧
    rge RVal.nan (RVal.val 5) = false ∧
    (lcaStepN cfgC9 (RVal.val 0) (fun _ => RVal.nan)
      (initStateN cfgC9 0)).x.getD 0 RVal.nan = RVal.nan ∧
    (simulateTrialN cfgC9 (RVal.val 0) (fun _ => RVal.nan) 0).resp = -1 ∧
    (simulateTrialN cfgC9 (RVal.val 0) (fun _ => RVal.nan) 0).iter =
      cfgC9.maxiter := by
  have h := lca_C9_nan cfgC9 (RVal.val 0) (fun _ => RVal.nan) 0 0
    (RVal.val 5) (initStateN cfgC9 0) (fun z => rfl) (by decide)
    (by decide) (by decide)
  exact ⟨by decide, h.1, h.2.1, h.2.2.1, h.2.2.2⟩
